import Mathlib

/-!
Verification of the password analysis engine of `password_security_app.py`.

Modelling conventions:
* A Python string is a `List Nat` of Unicode code points.  The character
  predicates (`str.islower`, `str.isupper`, `str.isdigit`, `str.isalnum`,
  `str.lower`, `str.upper`, `str.strip`) are modelled on their ASCII
  fragment, which is the range the application's constants and detectors
  operate on.
* Arbitrary-precision Python integers are `Nat`; Python floats are modelled
  as real numbers `ℝ` (so the float formulas are read as exact real
  arithmetic).
* `str.replace` is only ever called with single-character patterns in the
  source, where it coincides with a character-wise map.
-/

namespace PasswordApp

/-- Code points of a Lean string literal, used to transcribe the Python
string literals of the source. -/
def strToCodes (s : String) : List Nat := s.toList.map Char.toNat

/-- ASCII fragment of Python `str.islower` on one character. -/
def isLowerC (c : Nat) : Bool := decide (97 ≤ c ∧ c ≤ 122)

/-- ASCII fragment of Python `str.isupper` on one character. -/
def isUpperC (c : Nat) : Bool := decide (65 ≤ c ∧ c ≤ 90)

/-- Python `str.isdigit` on one ASCII character. -/
def isDigitC (c : Nat) : Bool := decide (48 ≤ c ∧ c ≤ 57)

/-- ASCII fragment of Python `str.isalnum` on one character. -/
def isAlnumC (c : Nat) : Bool := isLowerC c || isUpperC c || isDigitC c

/-- ASCII whitespace, the characters removed by Python `str.strip()`. -/
def isSpaceC (c : Nat) : Bool :=
  decide (c = 32 ∨ c = 9 ∨ c = 10 ∨ c = 11 ∨ c = 12 ∨ c = 13)

/-- ASCII fragment of Python `str.lower` on one character. -/
def toLowerC (c : Nat) : Nat := if isUpperC c then c + 32 else c

/-- ASCII fragment of Python `str.upper` on one character. -/
def toUpperC (c : Nat) : Nat := if isLowerC c then c - 32 else c

/-- Python `s.lower()`. -/
def pyLower (s : List Nat) : List Nat := s.map toLowerC

/-- Python `s.strip()` (default whitespace stripping). -/
def pyStrip (s : List Nat) : List Nat :=
  ((s.dropWhile isSpaceC).reverse.dropWhile isSpaceC).reverse

/-- Python `s.capitalize()`: first character upper-cased, rest lower-cased. -/
def pyCapitalize : List Nat → List Nat
  | [] => []
  | c :: t => toUpperC c :: t.map toLowerC

/-- Python `s.isdigit()` on an ASCII string: non-empty and all digits. -/
def pyIsDigit (s : List Nat) : Bool := decide (s ≠ []) && s.all isDigitC

/-- Python substring containment `needle in hay`. -/
def listContains : List Nat → List Nat → Bool
  | [], needle => decide (needle = [])
  | c :: t, needle => needle.isPrefixOf (c :: t) || listContains t needle

-- ===================== Constants of the source =====================

/-- `WEAK_PASSWORDS` from the source (a 10-entry set literal). -/
def WEAK_PASSWORDS : List (List Nat) :=
  [strToCodes "123456", strToCodes "password", strToCodes "12345678",
   strToCodes "qwerty", strToCodes "abc123", strToCodes "111111",
   strToCodes "123123", strToCodes "password1", strToCodes "iloveyou",
   strToCodes "admin"]

/-- `KEYBOARD_ROWS` from the source. -/
def KEYBOARD_ROWS : List (List Nat) :=
  [strToCodes "1234567890", strToCodes "qwertyuiop",
   strToCodes "asdfghjkl", strToCodes "zxcvbnm"]

/-- `DEFAULT_DICT_SAMPLE` from the source. -/
def DEFAULT_DICT_SAMPLE : List (List Nat) :=
  [strToCodes "password", strToCodes "qwerty", strToCodes "dragon",
   strToCodes "iloveyou", strToCodes "monkey", strToCodes "letmein",
   strToCodes "football", strToCodes "admin", strToCodes "welcome",
   strToCodes "login", strToCodes "sunshine", strToCodes "princess"]

/-- `LEET_MAP` from the source, flattened to ordered (leet char, plain char)
replacement pairs in the dict's insertion order:
`{"a":"4@","e":"3","i":"1!","o":"0","s":"$5","t":"7","+":"t"}`. -/
def LEET_SUBS : List (Nat × Nat) :=
  [(52, 97), (64, 97),        -- '4' -> 'a', '@' -> 'a'
   (51, 101),                 -- '3' -> 'e'
   (49, 105), (33, 105),      -- '1' -> 'i', '!' -> 'i'
   (48, 111),                 -- '0' -> 'o'
   (36, 115), (53, 115),      -- '$' -> 's', '5' -> 's'
   (55, 116),                 -- '7' -> 't'
   (116, 43)]                 -- 't' -> '+'

-- ===================== Charset / keyspace =====================

/-- The character-class flags computed by `detect_charset_size`. -/
structure CharFlags where
  lower : Bool
  upper : Bool
  digit : Bool
  symbol : Bool
deriving DecidableEq, Repr

/-- `detect_charset_size(password)` from the source: returns
`(size ** len(password), size, flags)` where `size` is the sum of the
`CHARSETS` constants of the present classes (26 + 26 + 10 + 32),
falling back to 95 when no class is present. -/
def detect_charset_size (password : List Nat) : Nat × Nat × CharFlags :=
  let has_lower := password.any isLowerC
  let has_upper := password.any isUpperC
  let has_digit := password.any isDigitC
  let has_symbol := password.any (fun c => !isAlnumC c)
  let size0 :=
    (if has_lower then 26 else 0) + (if has_upper then 26 else 0) +
    (if has_digit then 10 else 0) + (if has_symbol then 32 else 0)
  let size := if size0 = 0 then 95 else size0
  (size ^ password.length, size,
   ⟨has_lower, has_upper, has_digit, has_symbol⟩)

-- ===================== Pattern detectors =====================

/-- The length-`k` windows `u[i:i+k]` for `i in range(len(u) - k + 1)`
(empty when `u` is shorter than `k`, matching Python's empty `range`). -/
def windowsOf (u : List Nat) (k : Nat) : List (List Nat) :=
  (List.range (u.length + 1 - k)).map (fun i => (u.drop i).take k)

/-- One universe's pass of `find_sequences` / `keyboard_walks`: the forward
windows found in `p`, then the windows of the reversed universe found in
`p`, in scan order. -/
def universeHits (p : List Nat) (u : List Nat) (k : Nat) : List (List Nat) :=
  (windowsOf u k).filter (fun seq => listContains p seq) ++
  (windowsOf u.reverse k).filter (fun seq => listContains p seq)

/-- `find_sequences(password, min_len)` from the source.  The source returns
`list(set(findings))` whose order is unspecified; we return the distinct
findings in first-occurrence order (`dedup`), which has the same members
and length. -/
def find_sequences (password : List Nat) (min_len : Nat) : List (List Nat) :=
  let p := pyLower password
  let alphabet := strToCodes "abcdefghijklmnopqrstuvwxyz"
  let digits := strToCodes "0123456789"
  (([alphabet, digits] ++ KEYBOARD_ROWS).flatMap
    (fun u => universeHits p u min_len)).dedup

/-- `keyboard_walks(password, min_len)` from the source (again with the
source's `list(set(...))` rendered as `dedup`). -/
def keyboard_walks (password : List Nat) (min_len : Nat) : List (List Nat) :=
  let p := pyLower password
  (KEYBOARD_ROWS.flatMap (fun u => universeHits p u min_len)).dedup

/-- Python `int(chunk)` on a 4-digit chunk. -/
def chunkVal (chunk : List Nat) : Nat :=
  chunk.foldl (fun acc c => acc * 10 + (c - 48)) 0

/-- `looks_like_year(password)` from the source: the first window
`password[i:i+4]`, `i in range(len(password) - 3)`, that is all digits with
value in [1900, 2099]. -/
def looks_like_year (password : List Nat) : Option (List Nat) :=
  (List.range (password.length - 3)).findSome? (fun i =>
    let chunk := (password.drop i).take 4
    if chunk.all isDigitC &&
        decide (1900 ≤ chunkVal chunk ∧ chunkVal chunk ≤ 2099) then
      some chunk
    else none)

/-- The scanning loop of `repeated_runs`: `rc`/`rl` are the current run's
character and length; returns `run_char * run_len` the moment `rl` reaches
`min_run`. -/
def repeatedRunsAux (min_run : Nat) : Nat → Nat → List Nat → Option (List Nat)
  | _, _, [] => none
  | rc, rl, c :: rest =>
    if c = rc then
      if min_run ≤ rl + 1 then some (List.replicate (rl + 1) rc)
      else repeatedRunsAux min_run rc (rl + 1) rest
    else repeatedRunsAux min_run c 1 rest

/-- `repeated_runs(password, min_run)` from the source. -/
def repeated_runs (password : List Nat) (min_run : Nat) : Option (List Nat) :=
  match password with
  | [] => none
  | c :: rest => repeatedRunsAux min_run c 1 rest

/-- Python `s.replace(old, new)` for single-character `old`/`new` (the only
way the source calls it), which is a character-wise map. -/
def replaceAllC (s : List Nat) (old new : Nat) : List Nat :=
  s.map (fun c => if c = old then new else c)

/-- `deleet(s)` from the source: lower-case, then apply each `LEET_MAP`
replacement in insertion order. -/
def deleet (s : List Nat) : List Nat :=
  LEET_SUBS.foldl (fun acc pr => replaceAllC acc pr.1 pr.2) (pyLower s)

/-- `is_palindrome(s)` from the source: keep alphanumerics, lower-case,
compare with the reverse, require filtered length ≥ 3. -/
def is_palindrome (s : List Nat) : Bool :=
  let filtered := (s.filter isAlnumC).map toLowerC
  decide (filtered = filtered.reverse) && decide (3 ≤ filtered.length)

/-- `repeated_substring(s)` from the source: the smallest `l` with
`1 ≤ l ≤ len/2`, `len % l == 0` and `s[:l] * (len // l) == s`. -/
def repeated_substring (s : List Nat) : Option (List Nat) :=
  let n := s.length
  ((List.range (n / 2)).map (· + 1)).findSome? (fun l =>
    if n % l = 0 then
      let sub := s.take l
      if (List.replicate (n / l) sub).flatten = s then some sub else none
    else none)

-- ===================== Pattern penalty aggregation =====================

/-- Sequence contribution of `pattern_penalties`:
`1 + min(3, len(seqs)//2)` when any sequence is found. -/
def seq_contrib (p : List Nat) : Nat :=
  let seqs := find_sequences p 3
  if seqs ≠ [] then 1 + min 3 (seqs.length / 2) else 0

/-- Year contribution of `pattern_penalties`. -/
def year_contrib (p : List Nat) : Nat :=
  if (looks_like_year p).isSome then 1 else 0

/-- Repeated-run contribution of `pattern_penalties`. -/
def run_contrib (p : List Nat) : Nat :=
  if (repeated_runs p 3).isSome then 1 else 0

/-- Repeated-substring contribution of `pattern_penalties`. -/
def subrep_contrib (p : List Nat) : Nat :=
  if (repeated_substring p).isSome then 1 else 0

/-- Palindrome contribution of `pattern_penalties`. -/
def palin_contrib (p : List Nat) : Nat :=
  if is_palindrome p then 1 else 0

/-- Keyboard-walk contribution of `pattern_penalties`. -/
def walk_contrib (p : List Nat) : Nat :=
  if keyboard_walks p 4 ≠ [] then 1 else 0

/-- Leet-dictionary contribution of `pattern_penalties`: 1 when some word
of `DEFAULT_DICT_SAMPLE` occurs in `deleet(password)`. -/
def leet_contrib (p : List Nat) : Nat :=
  if DEFAULT_DICT_SAMPLE.any (fun w => listContains (deleet p) w) then 1 else 0

/-- The penalty total of `pattern_penalties(password)` from the source (the
human-readable notes it also returns are presentation only). -/
def pattern_penalties (p : List Nat) : Nat :=
  seq_contrib p + year_contrib p + run_contrib p + subrep_contrib p +
  palin_contrib p + walk_contrib p + leet_contrib p

-- ===================== Strength score =====================

/-- The score of `strength_score(password)` from the source (the tips list
it also returns is presentation only).  The running total is an integer
clamped to [0, 10] at the end. -/
def strength_score (password : List Nat) : Int :=
  let L := password.length
  let score0 : Int :=
    (if 8 ≤ L then 2 else 0) + (if 12 ≤ L then 2 else 0) +
    (if 16 ≤ L then 1 else 0)
  let fl := (detect_charset_size password).2.2
  let score1 := score0 +
    (if fl.lower then 1 else 0) + (if fl.upper then 1 else 0) +
    (if fl.digit then 1 else 0) + (if fl.symbol then 1 else 0)
  let score2 := score1 + (if pyLower password ∈ WEAK_PASSWORDS then 0 else 1)
  let score3 := score2 - pattern_penalties password
  max 0 (min 10 score3)

-- ===================== Attack models =====================

/-- `estimate_bruteforce_time(keyspace_size, attempts_per_sec, average)`
from the source: `trials / max(attempts_per_sec, 1e-30)` with
`trials = keyspace_size / 2` (average) or `keyspace_size` (worst). -/
noncomputable def estimate_bruteforce_time (keyspace_size : Nat)
    (attempts_per_sec : ℝ) (average : Bool) : ℝ :=
  let trials : ℝ :=
    if average then (keyspace_size : ℝ) / 2 else (keyspace_size : ℝ)
  trials / max attempts_per_sec 1e-30

/-- The inner `for dlen in (1,2,3)` loop of `estimate_dictionary_time`:
adds `10 ** dlen` attempts per digit length and tests for
`word`/`Capitalized(word)` followed by 1..dlen trailing digits. -/
def dictDigitsLoop (password w wc : List Nat) :
    Nat → List Nat → Nat × Bool
  | attempts, [] => (attempts, false)
  | attempts, dlen :: rest =>
    let a := attempts + 10 ^ dlen
    if w.isPrefixOf password || wc.isPrefixOf password then
      let tail :=
        if w.isPrefixOf password then password.drop w.length
        else password.drop wc.length
      if pyIsDigit tail && decide (1 ≤ tail.length ∧ tail.length ≤ dlen) then
        (a, true)
      else dictDigitsLoop password w wc a rest
    else dictDigitsLoop password w wc a rest

/-- The mutation loop of `estimate_dictionary_time` over the distinct
wordlist entries, accumulating the attempt counter. -/
def dictMutLoop (password pw_lower : List Nat) :
    List (List Nat) → Nat → Nat × Bool
  | [], attempts => (attempts, false)
  | w :: rest, attempts =>
    let a1 := attempts + 1
    if w = pw_lower then (a1, true)
    else
      let wc := pyCapitalize w
      let a2 := a1 + 1
      if wc = password then (a2, true)
      else
        match dictDigitsLoop password w wc a2 [1, 2, 3] with
        | (a3, true) => (a3, true)
        | (a3, false) => dictMutLoop password pw_lower rest a3

/-- The attempt count and hit flag of `estimate_dictionary_time(password,
dictionary, words_per_sec)` from the source.  `dict_list` keeps the
stripped, lower-cased non-blank entries; a direct hit costs the 1-based
index in `dict_list`; otherwise the mutation loop runs over the distinct
entries (the source iterates a Python `set` in unspecified order; we use
first-occurrence order). -/
def dict_core (password : List Nat) (dictionary : List (List Nat)) :
    Nat × Bool :=
  let pw_lower := pyLower password
  let dict_list :=
    (dictionary.filter (fun w => pyStrip w ≠ [])).map
      (fun w => pyLower (pyStrip w))
  if pw_lower ∈ dict_list then (dict_list.indexOf pw_lower + 1, true)
  else dictMutLoop password pw_lower dict_list.dedup 0

/-- `estimate_dictionary_time` from the source: the accumulated attempt
count divided by the epsilon-floored throughput, with the hit flag. -/
noncomputable def estimate_dictionary_time (password : List Nat)
    (dictionary : List (List Nat)) (words_per_sec : ℝ) : ℝ × Bool :=
  let r := dict_core password dictionary
  ((r.1 : ℝ) / max words_per_sec 1e-30, r.2)

/-- `estimate_hybrid_time(password, dictionary, attempts_per_sec)` from the
source: the keyspace (floored at 1 when ≤ 0) raised to an exponent chosen
by the pattern-penalty tier, halved, divided by the floored throughput.
The `dictionary` argument is taken and ignored, as in the source. -/
noncomputable def estimate_hybrid_time (password : List Nat)
    (dictionary : List (List Nat)) (attempts_per_sec : ℝ) : ℝ :=
  let penalties := pattern_penalties password
  let ks0 := (detect_charset_size password).1
  let ks : ℝ := if ks0 ≤ 0 then 1 else (ks0 : ℝ)
  let eff : ℝ :=
    if 3 ≤ penalties then ks ^ (0.5 : ℝ)
    else if penalties = 2 then ks ^ (0.7 : ℝ)
    else ks ^ (0.9 : ℝ)
  (eff / 2) / max attempts_per_sec 1e-30

-- ===================== Analysis aggregation =====================

/-- The derived values of one run of the analyze tab (source lines
800–840), with the breach-lookup outcome passed through. -/
structure AnalysisResult where
  score : Int
  charset_size : Nat
  keyspace : Nat
  keyspace_entropy_bits : ℝ
  shannon_bits : ℝ
  pattern_penalty : Nat
  breach : Option Nat
  brute_avg : ℝ
  brute_worst : ℝ
  dict_seconds : ℝ
  dict_hit : Bool
  hybrid_seconds : ℝ

/-- `shannon_entropy_bits(s)` from the source: 0.0 for the empty string,
otherwise `sum over distinct characters of -(p) * log2(p)` (with
`p = count / length`) multiplied by the length. -/
noncomputable def shannon_entropy_bits (s : List Nat) : ℝ :=
  if s = [] then 0
  else
    (s.dedup.map (fun c =>
      -((s.count c : ℝ) / s.length) *
        Real.logb 2 ((s.count c : ℝ) / s.length))).sum * s.length

/-- The analyze-tab computation as a function of its inputs: score,
charset/keyspace, both entropies, penalty total, and the three attack
estimates, with the breach-lookup outcome (`none` = unavailable) only
recorded.  `keyspace_entropy_bits` is
`len(password) * (log2(cs) if cs > 0 else 0)` as in the source. -/
noncomputable def analyze (password : List Nat) (dictionary : List (List Nat))
    (brute_speed dict_speed hybrid_speed : ℝ) (breach_result : Option Nat) :
    AnalysisResult :=
  let r := detect_charset_size password
  let dict_est := estimate_dictionary_time password dictionary dict_speed
  { score := strength_score password
    charset_size := r.2.1
    keyspace := r.1
    keyspace_entropy_bits :=
      (password.length : ℝ) *
        (if 0 < r.2.1 then Real.logb 2 (r.2.1 : ℝ) else 0)
    shannon_bits := shannon_entropy_bits password
    pattern_penalty := pattern_penalties password
    breach := breach_result
    brute_avg := estimate_bruteforce_time r.1 brute_speed true
    brute_worst := estimate_bruteforce_time r.1 brute_speed false
    dict_seconds := dict_est.1
    dict_hit := dict_est.2
    hybrid_seconds := estimate_hybrid_time password dictionary hybrid_speed }

-- ===================== Derived characterizations =====================

/-- The character-wise effect of `deleet`'s replacement chain: lower-case,
then `4`/`@` ↦ `a`, `3` ↦ `e`, `1`/`!` ↦ `i`, `0` ↦ `o`, `$`/`5` ↦ `s`,
and — because the `"t": "7"` replacement runs before `"+": "t"` — both
`7` and `t` end at `+`. -/
def deleetChar (c : Nat) : Nat :=
  let l := toLowerC c
  if l = 52 ∨ l = 64 then 97
  else if l = 51 then 101
  else if l = 49 ∨ l = 33 then 105
  else if l = 48 then 111
  else if l = 36 ∨ l = 53 then 115
  else if l = 55 ∨ l = 116 then 43
  else l

/-- The character of the first window of three equal consecutive characters
of a list, if any: the reference point for what `repeated_runs` returns. -/
def firstTriple : List Nat → Option Nat
  | a :: b :: c :: rest =>
    if a = b ∧ b = c then some a else firstTriple (b :: c :: rest)
  | _ => none

-- ===================== Helper lemmas =====================

theorem charset_size_pos (p : List Nat) : 0 < (detect_charset_size p).2.1 := by
  simp only [detect_charset_size]
  split_ifs <;> omega

theorem keyspace_eq_pow (p : List Nat) :
    (detect_charset_size p).1 = (detect_charset_size p).2.1 ^ p.length := rfl

theorem keyspace_pos (p : List Nat) : 0 < (detect_charset_size p).1 := by
  rw [keyspace_eq_pow]
  exact Nat.pos_pow_of_pos _ (charset_size_pos p)

/-- `strength_score` written as the spec's decomposition: length bonus plus
class bonus plus uniqueness bonus minus the pattern penalties, clamped to
[0, 10]. -/
theorem strength_score_eq (p : List Nat) :
    strength_score p = max 0 (min 10 (
      ((if 8 ≤ p.length then 2 else 0) + (if 12 ≤ p.length then 2 else 0) +
        (if 16 ≤ p.length then 1 else 0) : Int) +
      ((if p.any isLowerC then 1 else 0) + (if p.any isUpperC then 1 else 0) +
        (if p.any isDigitC then 1 else 0) +
        (if p.any (fun c => !isAlnumC c) then 1 else 0)) +
      (if pyLower p ∈ WEAK_PASSWORDS then 0 else 1) -
      (pattern_penalties p : Int))) := by
  simp only [strength_score, detect_charset_size]
  congr 2
  ring

theorem listContains_correct (hay needle : List Nat) :
    listContains hay needle = true ↔ needle <:+: hay := by
  induction hay with
  | nil => simp [listContains, List.infix_nil]
  | cons c t ih =>
    simp [listContains, List.infix_cons_iff, List.isPrefixOf_iff_prefix, ih]

-- ===================== Claim theorems =====================

/-- C1: the charset analyzer returns the alphabet size as the sum of the
fixed per-class sizes (lower 26, upper 26, digit 10, symbol = any
non-alphanumeric character, 32) over the classes present, 95 when no class
is present; the keyspace equals `alphabet_size ^ length`; and the empty
password yields alphabet size 95 and keyspace 1. -/
theorem charset_alphabet_keyspace (p : List Nat) :
    (detect_charset_size p).2.1 =
      (if p.any isLowerC || p.any isUpperC || p.any isDigitC ||
          p.any (fun c => !isAlnumC c) then
        (if p.any isLowerC then 26 else 0) +
        (if p.any isUpperC then 26 else 0) +
        (if p.any isDigitC then 10 else 0) +
        (if p.any (fun c => !isAlnumC c) then 32 else 0)
      else 95) ∧
    (detect_charset_size p).1 = (detect_charset_size p).2.1 ^ p.length ∧
    (detect_charset_size []).2.1 = 95 ∧ (detect_charset_size []).1 = 1 := by
  refine ⟨?_, keyspace_eq_pow p, by decide, by decide⟩
  simp only [detect_charset_size]
  cases h1 : p.any isLowerC <;> cases h2 : p.any isUpperC <;>
    cases h3 : p.any isDigitC <;> cases h4 : p.any (fun c => !isAlnumC c) <;>
    simp

/-- C2: the strength score is the length bonus (+2 if length ≥ 8, +2 more
if ≥ 12, +1 more if ≥ 16) plus the class bonus (+1 per present class) plus
the uniqueness bonus (+1 when the case-folded password is not in the
10-entry weak list) minus the aggregate pattern penalties, clamped to
[0, 10]. -/
theorem strength_score_formula (p : List Nat) :
    strength_score p = max 0 (min 10 (
      ((if 8 ≤ p.length then 2 else 0) + (if 12 ≤ p.length then 2 else 0) +
        (if 16 ≤ p.length then 1 else 0) : Int) +
      ((if p.any isLowerC then 1 else 0) + (if p.any isUpperC then 1 else 0) +
        (if p.any isDigitC then 1 else 0) +
        (if p.any (fun c => !isAlnumC c) then 1 else 0)) +
      (if pyLower p ∈ WEAK_PASSWORDS then 0 else 1) -
      (pattern_penalties p : Int))) ∧
    WEAK_PASSWORDS.length = 10 :=
  ⟨strength_score_eq p, rfl⟩

/-- C9: the score, charset profile, keyspace, both entropies, the penalty
total and all three attack estimates are functions of the password,
wordlist and attacker speeds alone: two analyses that differ only in the
breach-lookup outcome (including an unavailable `none`) agree on all of
them, and only the recorded breach status differs. -/
theorem breach_result_noninterference (p : List Nat) (d : List (List Nat))
    (s1 s2 s3 : ℝ) (b1 b2 : Option Nat) :
    (analyze p d s1 s2 s3 b1).score = (analyze p d s1 s2 s3 b2).score ∧
    (analyze p d s1 s2 s3 b1).charset_size =
      (analyze p d s1 s2 s3 b2).charset_size ∧
    (analyze p d s1 s2 s3 b1).keyspace = (analyze p d s1 s2 s3 b2).keyspace ∧
    (analyze p d s1 s2 s3 b1).keyspace_entropy_bits =
      (analyze p d s1 s2 s3 b2).keyspace_entropy_bits ∧
    (analyze p d s1 s2 s3 b1).shannon_bits =
      (analyze p d s1 s2 s3 b2).shannon_bits ∧
    (analyze p d s1 s2 s3 b1).pattern_penalty =
      (analyze p d s1 s2 s3 b2).pattern_penalty ∧
    (analyze p d s1 s2 s3 b1).brute_avg =
      (analyze p d s1 s2 s3 b2).brute_avg ∧
    (analyze p d s1 s2 s3 b1).brute_worst =
      (analyze p d s1 s2 s3 b2).brute_worst ∧
    (analyze p d s1 s2 s3 b1).dict_seconds =
      (analyze p d s1 s2 s3 b2).dict_seconds ∧
    (analyze p d s1 s2 s3 b1).dict_hit = (analyze p d s1 s2 s3 b2).dict_hit ∧
    (analyze p d s1 s2 s3 b1).hybrid_seconds =
      (analyze p d s1 s2 s3 b2).hybrid_seconds ∧
    (analyze p d s1 s2 s3 b1).breach = b1 :=
  ⟨rfl, rfl, rfl, rfl, rfl, rfl, rfl, rfl, rfl, rfl, rfl, rfl⟩

/-- C3: the hybrid attack estimate is `keyspace ^ e / 2` divided by the
epsilon-floored throughput, with `e = 0.5` when the pattern penalty total
is ≥ 3, `0.7` when it is 2, and `0.9` otherwise.  The source's defensive
`if ks <= 0: ks = 1` never fires because the keyspace is at least 1, so
the formula holds with the actual keyspace. -/
theorem hybrid_time_formula (p : List Nat) (d : List (List Nat)) (thr : ℝ) :
    estimate_hybrid_time p d thr =
      (((detect_charset_size p).1 : ℝ) ^
        (if 3 ≤ pattern_penalties p then (0.5 : ℝ)
         else if pattern_penalties p = 2 then 0.7 else 0.9) / 2) /
        max thr 1e-30 ∧
    1 ≤ (detect_charset_size p).1 := by
  have hpos := keyspace_pos p
  constructor
  · simp only [estimate_hybrid_time]
    rw [if_neg (by omega : ¬ (detect_charset_size p).1 ≤ 0)]
    split_ifs <;> rfl
  · omega

theorem dedup_replicate_succ (c n : Nat) :
    (List.replicate (n + 1) c).dedup = [c] := by
  induction n with
  | zero => simp
  | succ m ih =>
    rw [List.replicate_succ,
      List.dedup_cons_of_mem (List.mem_replicate.mpr ⟨Nat.succ_ne_zero m, rfl⟩),
      ih]

/-- C6: Shannon entropy of the empty password is 0; for a non-empty
password it is the length times the sum over distinct characters of
`-p * log2 p` with `p` the character's frequency (total bits); and a
password of `L` identical characters has Shannon entropy 0 for every `L`. -/
theorem shannon_entropy_spec :
    shannon_entropy_bits [] = 0 ∧
    (∀ s : List Nat, shannon_entropy_bits s =
      if s = [] then 0 else
        (s.dedup.map (fun c =>
          -((s.count c : ℝ) / s.length) *
            Real.logb 2 ((s.count c : ℝ) / s.length))).sum * s.length) ∧
    (∀ c L : Nat, shannon_entropy_bits (List.replicate L c) = 0) := by
  refine ⟨by simp [shannon_entropy_bits], fun s => rfl, fun c L => ?_⟩
  cases L with
  | zero => simp [shannon_entropy_bits]
  | succ n =>
    have hne : List.replicate (n + 1) c ≠ [] := by simp
    simp only [shannon_entropy_bits, if_neg hne, dedup_replicate_succ,
      List.map_cons, List.map_nil, List.sum_cons, List.sum_nil,
      List.count_replicate_self, List.length_replicate, add_zero]
    rw [div_self (by exact_mod_cast Nat.succ_ne_zero n), Real.logb_one]
    ring

/-- C8: the strength score is monotonically non-decreasing in length when
the character-class flags, the weak-list membership of the case-folded
password, and (at most) the pattern penalties are held fixed. -/
theorem strength_score_length_monotone (p q : List Nat)
    (hlen : p.length ≤ q.length)
    (hlow : p.any isLowerC = q.any isLowerC)
    (hup : p.any isUpperC = q.any isUpperC)
    (hdig : p.any isDigitC = q.any isDigitC)
    (hsym : p.any (fun c => !isAlnumC c) = q.any (fun c => !isAlnumC c))
    (hweak : pyLower p ∈ WEAK_PASSWORDS ↔ pyLower q ∈ WEAK_PASSWORDS)
    (hpen : pattern_penalties q ≤ pattern_penalties p) :
    strength_score p ≤ strength_score q := by
  rw [strength_score_eq p, strength_score_eq q, hlow, hup, hdig, hsym]
  have hw : (if pyLower p ∈ WEAK_PASSWORDS then (0 : Int) else 1) =
      (if pyLower q ∈ WEAK_PASSWORDS then 0 else 1) := by
    by_cases h : pyLower p ∈ WEAK_PASSWORDS
    · rw [if_pos h, if_pos (hweak.mp h)]
    · rw [if_neg h, if_neg (fun hq => h (hweak.mpr hq))]
  rw [hw]
  have hA : ((if 8 ≤ p.length then 2 else 0) + (if 12 ≤ p.length then 2 else 0) +
      (if 16 ≤ p.length then 1 else 0) : Int) ≤
      (if 8 ≤ q.length then 2 else 0) + (if 12 ≤ q.length then 2 else 0) +
      (if 16 ≤ q.length then 1 else 0) := by
    split_ifs <;> omega
  have hpen' : (pattern_penalties q : Int) ≤ (pattern_penalties p : Int) := by
    exact_mod_cast hpen
  have clamp : ∀ x y : Int, x ≤ y →
      max 0 (min 10 x) ≤ max 0 (min 10 y) := fun x y h => by omega
  exact clamp _ _ (by linarith)

/-- Witness for C8 at `p = "Ab"`, `q = "Abx"`. -/
theorem strength_score_length_monotone_witness :
    strength_score (strToCodes "Ab") ≤ strength_score (strToCodes "Abx") :=
  strength_score_length_monotone _ _ (by decide) (by decide) (by decide)
    (by decide) (by decide) (by decide) (by decide)

theorem foldl_replace_map (subs : List (Nat × Nat)) (s : List Nat) :
    subs.foldl (fun acc pr => replaceAllC acc pr.1 pr.2) s =
      s.map (fun c =>
        subs.foldl (fun a pr => if a = pr.1 then pr.2 else a) c) := by
  induction subs generalizing s with
  | nil => simp
  | cons pr rest ih =>
    simp only [List.foldl_cons]
    rw [ih (replaceAllC s pr.1 pr.2)]
    simp only [replaceAllC, List.map_map]
    rfl

theorem leetFold_eq (x : Nat) :
    LEET_SUBS.foldl (fun a pr => if a = pr.1 then pr.2 else a) x =
      (if x = 52 ∨ x = 64 then 97 else if x = 51 then 101
       else if x = 49 ∨ x = 33 then 105 else if x = 48 then 111
       else if x = 36 ∨ x = 53 then 115 else if x = 55 ∨ x = 116 then 43
       else x) := by
  by_cases h52 : x = 52
  · subst h52; decide
  by_cases h64 : x = 64
  · subst h64; decide
  by_cases h51 : x = 51
  · subst h51; decide
  by_cases h49 : x = 49
  · subst h49; decide
  by_cases h33 : x = 33
  · subst h33; decide
  by_cases h48 : x = 48
  · subst h48; decide
  by_cases h36 : x = 36
  · subst h36; decide
  by_cases h53 : x = 53
  · subst h53; decide
  by_cases h55 : x = 55
  · subst h55; decide
  by_cases h116 : x = 116
  · subst h116; decide
  simp [LEET_SUBS, h52, h64, h51, h49, h33, h48, h36, h53, h55, h116]

theorem deleet_eq_map (s : List Nat) : deleet s = s.map deleetChar := by
  unfold deleet pyLower
  rw [foldl_replace_map, List.map_map]
  have hfun : ((fun c =>
      List.foldl (fun a pr => if a = pr.1 then pr.2 else a) c LEET_SUBS) ∘
        toLowerC) = deleetChar := by
    funext a
    simp only [Function.comp_apply]
    rw [leetFold_eq (toLowerC a)]
    rfl
  rw [hfun]

theorem toLowerC_idem (c : Nat) : toLowerC (toLowerC c) = toLowerC c := by
  simp only [toLowerC, isUpperC, decide_eq_true_eq]
  split_ifs <;> omega

theorem deleetChar_idem (c : Nat) : deleetChar (deleetChar c) = deleetChar c := by
  have hcases : deleetChar c = 97 ∨ deleetChar c = 101 ∨ deleetChar c = 105 ∨
      deleetChar c = 111 ∨ deleetChar c = 115 ∨ deleetChar c = 43 ∨
      (deleetChar c = toLowerC c ∧
        ¬(toLowerC c = 52 ∨ toLowerC c = 64) ∧ ¬ toLowerC c = 51 ∧
        ¬(toLowerC c = 49 ∨ toLowerC c = 33) ∧ ¬ toLowerC c = 48 ∧
        ¬(toLowerC c = 36 ∨ toLowerC c = 53) ∧
        ¬(toLowerC c = 55 ∨ toLowerC c = 116)) := by
    simp only [deleetChar]
    split_ifs with h1 h2 h3 h4 h5 h6 <;> tauto
  rcases hcases with h | h | h | h | h | h | ⟨h, hn⟩ <;> rw [h]
  · decide
  · decide
  · decide
  · decide
  · decide
  · decide
  · simp only [deleetChar, toLowerC_idem]
    split_ifs <;> omega

/-- C10: the de-leet normalization is idempotent — a second lower-casing
and substitution pass leaves the result unchanged. -/
theorem deleet_idempotent (s : List Nat) : deleet (deleet s) = deleet s := by
  rw [deleet_eq_map s, deleet_eq_map, List.map_map]
  exact List.map_congr_left (fun a _ => deleetChar_idem a)

/-- C5: `deleet` lower-cases and then applies the fixed substitution table
in order (4/@ → a, 3 → e, 1/! → i, 0 → o, $/5 → s, 7 → t, then t → +,
so character-wise both 7 and t end at +), and the leet-dictionary detector
contributes penalty 1 exactly when some word of the small default
common-word list is a substring of the de-leeted password. -/
theorem leet_dictionary_spec (p : List Nat) :
    deleet p = p.map deleetChar ∧
    (leet_contrib p = 1 ↔ ∃ w ∈ DEFAULT_DICT_SAMPLE, w <:+: deleet p) ∧
    (leet_contrib p = 1 ∨ leet_contrib p = 0) := by
  have key : DEFAULT_DICT_SAMPLE.any (fun w => listContains (deleet p) w) =
      true ↔ ∃ w ∈ DEFAULT_DICT_SAMPLE, w <:+: deleet p := by
    rw [List.any_eq_true]
    constructor
    · rintro ⟨w, hw, hc⟩
      exact ⟨w, hw, (listContains_correct _ _).mp hc⟩
    · rintro ⟨w, hw, hc⟩
      exact ⟨w, hw, (listContains_correct _ _).mpr hc⟩
  refine ⟨deleet_eq_map p, ?_, ?_⟩
  · unfold leet_contrib
    split_ifs with h
    · exact iff_of_true rfl (key.mp h)
    · refine iff_of_false ?_ (fun he => h (key.mpr he))
      simp
  · unfold leet_contrib
    split_ifs <;> simp

theorem firstTriple_cons_of_ne {c d : Nat} (h : c ≠ d) (t : List Nat) :
    firstTriple (c :: d :: t) = firstTriple (d :: t) := by
  cases t with
  | nil => rfl
  | cons e t' =>
    show (if c = d ∧ d = e then some c else firstTriple (d :: e :: t')) =
      firstTriple (d :: e :: t')
    exact if_neg (fun hx => h hx.1)

theorem runsAux_spec (rest : List Nat) : ∀ c : Nat,
    (repeatedRunsAux 3 c 2 rest =
      (firstTriple (c :: c :: rest)).map (fun ch => List.replicate 3 ch)) ∧
    (repeatedRunsAux 3 c 1 rest =
      (firstTriple (c :: rest)).map (fun ch => List.replicate 3 ch)) := by
  induction rest with
  | nil => exact fun c => ⟨rfl, rfl⟩
  | cons d t ih =>
    intro c
    constructor
    · by_cases h : d = c
      · subst h
        simp [repeatedRunsAux, firstTriple]
      · have e1 : repeatedRunsAux 3 c 2 (d :: t) = repeatedRunsAux 3 d 1 t := by
          simp [repeatedRunsAux, h]
        have e2 : firstTriple (c :: c :: d :: t) = firstTriple (d :: t) := by
          have estep : firstTriple (c :: c :: d :: t) =
              firstTriple (c :: d :: t) := by
            show (if c = c ∧ c = d then some c else firstTriple (c :: d :: t)) =
              firstTriple (c :: d :: t)
            exact if_neg (fun hx => h hx.2.symm)
          rw [estep, firstTriple_cons_of_ne (fun hx => h hx.symm) t]
        rw [e1, (ih d).2, e2]
    · by_cases h : d = c
      · subst h
        have e1 : repeatedRunsAux 3 d 1 (d :: t) = repeatedRunsAux 3 d 2 t := by
          simp [repeatedRunsAux]
        rw [e1, (ih d).1]
      · have e1 : repeatedRunsAux 3 c 1 (d :: t) = repeatedRunsAux 3 d 1 t := by
          simp [repeatedRunsAux, h]
        rw [e1, (ih d).2, firstTriple_cons_of_ne (fun hx => h hx.symm) t]

theorem firstTriple_none_iff (p : List Nat) :
    firstTriple p = none ↔ ∀ ch : Nat, ¬ ([ch, ch, ch] <:+: p) := by
  induction p with
  | nil =>
    refine iff_of_true rfl (fun ch hinf => ?_)
    have := hinf.length_le
    simp at this
  | cons a tail ih =>
    rcases tail with _ | ⟨b, tail2⟩
    · refine iff_of_true rfl (fun ch hinf => ?_)
      have := hinf.length_le
      simp at this
    · rcases tail2 with _ | ⟨c, rest⟩
      · refine iff_of_true rfl (fun ch hinf => ?_)
        have := hinf.length_le
        simp at this
      · by_cases habc : a = b ∧ b = c
        · obtain ⟨rfl, rfl⟩ := habc
          refine iff_of_false (by simp [firstTriple]) (fun hall => ?_)
          exact hall a ⟨[], rest, rfl⟩
        · have e : firstTriple (a :: b :: c :: rest) =
              firstTriple (b :: c :: rest) := by
            show (if a = b ∧ b = c then some a
              else firstTriple (b :: c :: rest)) = firstTriple (b :: c :: rest)
            exact if_neg habc
          rw [e, ih]
          constructor
          · intro h ch hinf
            rcases List.infix_cons_iff.mp hinf with hpre | hinf2
            · obtain ⟨h1, hpre2⟩ := List.cons_prefix_cons.mp hpre
              obtain ⟨h2, hpre3⟩ := List.cons_prefix_cons.mp hpre2
              obtain ⟨h3, _⟩ := List.cons_prefix_cons.mp hpre3
              omega
            · exact h ch hinf2
          · intro h ch hinf
            refine h ch ?_
            exact List.infix_cons_iff.mpr (Or.inr hinf)

/-- C4 counterexample: on `"aaaa"`, whose first qualifying run has length
4, `repeated_runs` returns only the 3-character triggering window
`"aaa"`, not the full run `"aaaa"` the claim promises. -/
theorem repeated_runs_counterexample :
    repeated_runs (strToCodes "aaaa") 3 = some (strToCodes "aaa") ∧
    strToCodes "aaa" ≠ strToCodes "aaaa" := by decide

/-- C4 (amended): for every password containing a run of three or more
identical consecutive characters, `repeated_runs` returns the
three-character triggering window of the first such run (the run's
character replicated exactly 3 times, not the full maximal run); for
passwords with no run of length ≥ 3 it returns no finding. -/
theorem repeated_runs_first_window (p : List Nat) :
    repeated_runs p 3 =
      (firstTriple p).map (fun ch => List.replicate 3 ch) ∧
    (repeated_runs p 3 = none ↔ ∀ ch : Nat, ¬ ([ch, ch, ch] <:+: p)) := by
  have h1 : repeated_runs p 3 =
      (firstTriple p).map (fun ch => List.replicate 3 ch) := by
    cases p with
    | nil => rfl
    | cons c rest => exact (runsAux_spec rest c).2
  refine ⟨h1, ?_⟩
  rw [h1, Option.map_eq_none']
  exact firstTriple_none_iff p

/-- C7 counterexample: the claim fails as stated.  With wordlist `[" a"]`
(non-empty, first entry non-blank) and password `" A"`, the case-folded
password equals the case-folded first entry, yet the estimator reports no
hit, because the wordlist entry is whitespace-stripped before comparison;
and with matching password `"a"` and throughput `1e-40 > 0`, the seconds
are `1 / max(throughput, 1e-30) ≠ 1 / throughput`. -/
theorem dict_first_entry_counterexample :
    pyStrip (strToCodes " a") ≠ [] ∧
    pyLower (strToCodes " A") = pyLower (strToCodes " a") ∧
    (dict_core (strToCodes " A") [strToCodes " a"]).2 = false ∧
    (estimate_dictionary_time (strToCodes "a") [strToCodes "a"] 1e-40).1 ≠
      1 / (1e-40 : ℝ) := by
  refine ⟨by decide, by decide, by decide, ?_⟩
  have hc : dict_core (strToCodes "a") [strToCodes "a"] = (1, true) := by decide
  simp only [estimate_dictionary_time, hc]
  rw [max_eq_right (by norm_num : (1e-40 : ℝ) ≤ 1e-30)]
  norm_num

/-- C7 (amended): for every non-empty wordlist whose first entry is
non-blank and every throughput ≥ the 1e-30 epsilon floor, if the
case-folded password equals the case-folded, whitespace-stripped first
entry, the dictionary estimator returns hit = true and seconds =
1 / throughput (the 1-based position of that entry over the throughput). -/
theorem dict_first_entry_amended (password : List Nat) (e : List Nat)
    (rest : List (List Nat)) (thr : ℝ)
    (he : pyStrip e ≠ []) (hm : pyLower password = pyLower (pyStrip e))
    (ht : (1e-30 : ℝ) ≤ thr) :
    estimate_dictionary_time password (e :: rest) thr = (1 / thr, true) := by
  simp only [estimate_dictionary_time, dict_core]
  rw [List.filter_cons_of_pos (by simpa using he)]
  simp only [List.map_cons]
  rw [← hm]
  rw [if_pos (List.mem_cons_self _ _)]
  have hidx : ∀ (x : List Nat) (l : List (List Nat)),
      List.indexOf x (x :: l) = 0 := by
    intro x l
    simp [List.indexOf, List.findIdx_cons]
  rw [hidx, max_eq_left ht]
  norm_num

/-- Witness for the amended C7 at password `"a"`, wordlist `["a"]`,
throughput 1. -/
theorem dict_first_entry_amended_witness :
    estimate_dictionary_time (strToCodes "a") [strToCodes "a"] 1 =
      (1 / 1, true) :=
  dict_first_entry_amended (strToCodes "a") (strToCodes "a") [] 1 (by decide)
    (by decide) (by norm_num)

end PasswordApp
